import Mathlib

/-!
Verification development for the latency-test repository.

The code under scrutiny is the RTT measurement handshake in `src/server.ts`
(the canonical variant) together with the watermark-tracking persistence
variant in `src/unnamed/part_001`:

* an in-memory token map (`tokenMap : Map<string, TestState>`) holds one
  `TestState` per in-flight handshake;
* `POST /reportLatency` either creates a session (no token supplied) or
  advances one round (token supplied), completing after
  `DEFAULT_TOTAL_ITERATIONS` rounds with `avgRttMs = Math.round(sum/total)`
  and an upsert into the `userServerLatency` collection;
* `cleanupTokenMap` sweeps out sessions older than `EXPIRATION_MS`;
* `GET /closestServer/:userId` picks the record with minimal `lastPingMs`
  (JS `Array.sort` is stable, so ties keep first-seen order) subject to
  `LATENCY_CLOSE_THRESHOLD_MS`.

Timestamps are modelled as integers (milliseconds, `Date#getTime`).  The
`await latencyColl.updateOne` on the completion path can throw; this is
modelled by the `dbOk` flag: `dbOk = false` means the write rejected, in
which case control jumps to the route's `catch` block (HTTP 500) before
`tokenMap.delete(token)` runs.
-/

namespace LatencyTest

/-- Milliseconds timestamp, as produced by `Date#getTime` / `Date.now()`. -/
abbrev Time := Int

/-- `const DEFAULT_TOTAL_ITERATIONS = 5` (src/server.ts line 26). -/
def DEFAULT_TOTAL_ITERATIONS : Nat := 5

/-- `const EXPIRATION_MS = 60_000` (src/server.ts line 101). -/
def EXPIRATION_MS : Int := 60000

/-- `const LATENCY_CLOSE_THRESHOLD_MS = 150` (src/server.ts line 18). -/
def LATENCY_CLOSE_THRESHOLD_MS : Int := 150

/-- `const SERVER_REGION = process.env.SERVER_REGION || "UNKNOWN"`
(src/server.ts line 14); the env default is used here. -/
def SERVER_REGION : String := "UNKNOWN"

/-- `interface TestState` (src/server.ts lines 49-56): per-token in-memory
handshake state. -/
structure TestState where
  userId : String
  ipAddress : String
  iteration : Nat
  totalIterations : Nat
  sumOfRTTs : Int
  startTracking : Time
deriving DecidableEq

/-- `const tokenMap = new Map<string, TestState>()` (src/server.ts line 98),
as an insertion-ordered association list (JS `Map` preserves insertion
order and has unique keys). -/
abbrev TokenMap := List (String × TestState)

/-- `tokenMap.get(token)`: first binding for the key, if any. -/
def mapGet : TokenMap → String → Option TestState
  | [], _ => none
  | p :: ps, k => if p.1 = k then some p.2 else mapGet ps k

/-- `tokenMap.set(token, state)`: replace the existing binding in place,
else append (JS `Map.set` keeps insertion order). -/
def mapSet : TokenMap → String → TestState → TokenMap
  | [], k, v => [(k, v)]
  | p :: ps, k, v => if p.1 = k then (k, v) :: ps else p :: mapSet ps k v

/-- `tokenMap.delete(token)`. -/
def mapDelete (m : TokenMap) (k : String) : TokenMap :=
  m.filter (fun p => p.1 != k)

/-- `cleanupTokenMap` (src/server.ts lines 102-109): delete every entry with
`now - state.startTracking.getTime() > EXPIRATION_MS`; equivalently keep
exactly the entries whose age is at most `EXPIRATION_MS`. -/
def cleanupTokenMap (now : Time) (m : TokenMap) : TokenMap :=
  m.filter (fun p => decide (now - p.2.startTracking ≤ EXPIRATION_MS))

/-- JS `Math.round x` equals `⌊x + 1/2⌋` (halves round toward `+∞`), so
`Math.round(sum / n)` for integer `sum` and positive integer `n` is
`⌊(2*sum + n) / (2*n)⌋`, floor division on integers. -/
def jsRound (sum : Int) (n : Nat) : Int :=
  Int.fdiv (2 * sum + (n : Int)) (2 * (n : Int))

/-- `interface UserLatencyDoc` (src/server.ts lines 32-39): one persisted
record per `(userId, region)`. -/
structure UserLatencyDoc where
  userId : String
  ipAddress : String
  region : String
  lastPingMs : Int
  updatedAt : Time
  createdAt : Time
deriving DecidableEq

/-- `latencyColl.updateOne({userId, region}, {$set: {..., createdAt: new
Date()}}, {upsert: true})` (src/server.ts lines 397-410).  Mongo updates the
first matching document or inserts one built from the `$set` fields.  Note
that in this variant `createdAt` sits inside `$set`, so it is written on
every call. -/
def updateOneUpsert (uid region ip : String) (avg : Int) (now : Time) :
    List UserLatencyDoc → List UserLatencyDoc
  | [] => [{ userId := uid, ipAddress := ip, region := region,
             lastPingMs := avg, updatedAt := now, createdAt := now }]
  | d :: ds =>
    if d.userId = uid ∧ d.region = region then
      { userId := uid, ipAddress := ip, region := region,
        lastPingMs := avg, updatedAt := now, createdAt := now } :: ds
    else d :: updateOneUpsert uid region ip avg now ds

/-- `interface UserLatencyDoc` of the watermark variant
(src/unnamed/part_001 lines 46-54): additionally stores `lowestPingMs`. -/
structure UserLatencyDocMin where
  userId : String
  ipAddress : String
  region : String
  lastPingMs : Int
  lowestPingMs : Int
  updatedAt : Time
  createdAt : Time
deriving DecidableEq

/-- `latencyColl.updateOne` of the watermark variant (src/unnamed/part_001
lines 404-418): `$set` overwrites the average and `updatedAt`,
`$min: {lowestPingMs: supplied}` stores `min(stored, supplied)`, and
`$setOnInsert: {createdAt: new Date()}` writes `createdAt` only when the
document is being inserted. -/
def updateOneUpsertMin (uid region ip : String) (avg low : Int) (now : Time) :
    List UserLatencyDocMin → List UserLatencyDocMin
  | [] => [{ userId := uid, ipAddress := ip, region := region,
             lastPingMs := avg, lowestPingMs := low,
             updatedAt := now, createdAt := now }]
  | d :: ds =>
    if d.userId = uid ∧ d.region = region then
      { userId := uid, ipAddress := ip, region := region,
        lastPingMs := avg, lowestPingMs := min d.lowestPingMs low,
        updatedAt := now, createdAt := d.createdAt } :: ds
    else d :: updateOneUpsertMin uid region ip avg low now ds

/-- `latencyColl.find({userId: uid, region: region})` specialised to the
first match, used to read back a persisted watermark record. -/
def findDoc : List UserLatencyDocMin → String → String → Option UserLatencyDocMin
  | [], _, _ => none
  | d :: ds, uid, region =>
    if d.userId = uid ∧ d.region = region then some d else findDoc ds uid region

/-- The JSON replies of `POST /reportLatency` (src/server.ts lines 333-436),
one constructor per `res...json` site: 400 missing userId, phase-1 token
grant, 404 unknown token, in-progress round, completion, and the 500 sent by
the route's `catch` block. -/
inductive ReportResponse where
  | missingUserId
  | started (token : String) (totalIterations : Nat)
  | notFound
  | inProgress (iterationSoFar totalIterations : Nat)
  | completed (avgRttMs : Int) (totalIterations : Nat)
  | internalError
deriving DecidableEq

/-- The mutable server state touched by `/reportLatency`: the token map and
the Mongo collection. -/
structure ServerState where
  tokenMap : TokenMap
  latencyColl : List UserLatencyDoc
deriving DecidableEq

/-- `app.post("/reportLatency")` (src/server.ts lines 333-436) as a pure
transition.  `userId`/`token` are the request-body fields with `""` playing
the role of a missing (falsy) field; `ipAddress` is the already-normalised
client address; `now` is `new Date()` at the time of the call; `freshToken`
stands for `crypto.randomBytes(8).toString("hex")`; `dbOk` records whether
the `await latencyColl.updateOne` resolved.  When it rejects, the exception
reaches the route's `catch` (500) before `tokenMap.delete(token)` runs, but
after `state.sumOfRTTs` and `state.iteration` were mutated in place. -/
def reportLatency (st : ServerState) (userId token ipAddress : String)
    (now : Time) (freshToken : String) (dbOk : Bool) :
    ServerState × ReportResponse :=
  if userId = "" then (st, .missingUserId)
  else if token = "" then
    ({ st with
         tokenMap := mapSet st.tokenMap freshToken
                       { userId := userId, ipAddress := ipAddress,
                         iteration := 0,
                         totalIterations := DEFAULT_TOTAL_ITERATIONS,
                         sumOfRTTs := 0, startTracking := now } },
     .started freshToken DEFAULT_TOTAL_ITERATIONS)
  else
    match mapGet st.tokenMap token with
    | none => (st, .notFound)
    | some state =>
      -- rttMs = now - startTracking; sumOfRTTs += rttMs; iteration += 1
      if state.totalIterations ≤ state.iteration + 1 then
        if dbOk then
          ({ tokenMap := mapDelete st.tokenMap token,
             latencyColl := updateOneUpsert state.userId SERVER_REGION
               state.ipAddress
               (jsRound (state.sumOfRTTs + (now - state.startTracking))
                 state.totalIterations) now st.latencyColl },
           .completed
             (jsRound (state.sumOfRTTs + (now - state.startTracking))
               state.totalIterations) state.totalIterations)
        else
          ({ st with
               tokenMap := mapSet st.tokenMap token
                             { state with
                               sumOfRTTs :=
                                 state.sumOfRTTs + (now - state.startTracking),
                               iteration := state.iteration + 1 } },
           .internalError)
      else
        ({ st with
             tokenMap := mapSet st.tokenMap token
                           { state with
                             sumOfRTTs :=
                               state.sumOfRTTs + (now - state.startTracking),
                             iteration := state.iteration + 1,
                             startTracking := now } },
         .inProgress (state.iteration + 1) state.totalIterations)

/-- `records.sort((a, b) => a.lastPingMs - b.lastPingMs)` — insertion into an
ascending list, placing the inserted (earlier-seen) element before equal
keys, which matches the stability of JS `Array.sort`. -/
def insertByPing (x : UserLatencyDoc) : List UserLatencyDoc → List UserLatencyDoc
  | [] => [x]
  | y :: ys =>
    if x.lastPingMs ≤ y.lastPingMs then x :: y :: ys else y :: insertByPing x ys

/-- Stable ascending sort by `lastPingMs`, modelling
`records.sort((a, b) => a.lastPingMs - b.lastPingMs)` (src/server.ts
line 488). -/
def sortByPing : List UserLatencyDoc → List UserLatencyDoc
  | [] => []
  | x :: xs => insertByPing x (sortByPing xs)

/-- The three reply shapes of `GET /closestServer/:userId` (src/server.ts
lines 475-516): `closest: null` with the no-data message, `closest: null`
with the above-threshold message (carrying the best latency), and a winning
region. -/
inductive ClosestResponse where
  | noData
  | aboveThreshold (bestMs : Int)
  | closest (region : String) (lastPingMs : Int) (updatedAt : Time)
deriving DecidableEq

/-- `app.get("/closestServer/:userId")` (src/server.ts lines 475-516): fetch
the user's records, return no-data if empty, else sort ascending by
`lastPingMs`, take the head, and compare against the threshold.  (Sorting
preserves emptiness, so matching on the sorted list is the same emptiness
test as `records.length === 0`.) -/
def closestServer (coll : List UserLatencyDoc) (userId : String) :
    ClosestResponse :=
  match sortByPing (coll.filter (fun d => d.userId == userId)) with
  | [] => .noData
  | best :: _ =>
    if best.lastPingMs > LATENCY_CLOSE_THRESHOLD_MS then
      .aboveThreshold best.lastPingMs
    else
      .closest best.region best.lastPingMs best.updatedAt

/-- First record attaining the minimal `lastPingMs` of a list — the
specification-side description of the stable-sort-then-head selection. -/
def firstMinByPing : List UserLatencyDoc → Option UserLatencyDoc
  | [] => none
  | d :: ds =>
    match firstMinByPing ds with
    | none => some d
    | some m => if m.lastPingMs < d.lastPingMs then some m else some d

/-- Per-round RTT samples produced by a sequence of phase-2 calls at the
given times: each round measures `now - startTracking`, and an in-progress
round resets `startTracking := now`. -/
def rttSamples (start : Time) : List Time → List Int
  | [] => []
  | t :: ts => (t - start) :: rttSamples t ts

/-- A sequence of phase-2 `reportLatency` calls on one token at the given
times, with every persistence write succeeding; returns the final state and
the list of responses. -/
def runPhase2Calls (st : ServerState) (userId token ipAddress : String) :
    List Time → ServerState × List ReportResponse
  | [] => (st, [])
  | t :: ts =>
    let step := reportLatency st userId token ipAddress t "" true
    let rest := runPhase2Calls step.1 userId token ipAddress ts
    (rest.1, step.2 :: rest.2)

/-- Server states reachable from an empty server by `/reportLatency` calls —
with persistence writes that may succeed or reject — and sweep runs. -/
inductive Reachable : ServerState → Prop where
  | init : Reachable { tokenMap := [], latencyColl := [] }
  | report (uid tok ip : String) (now : Time) (fresh : String) (db : Bool)
      {st : ServerState} : Reachable st →
      Reachable (reportLatency st uid tok ip now fresh db).1
  | sweep (now : Time) {st : ServerState} : Reachable st →
      Reachable { st with tokenMap := cleanupTokenMap now st.tokenMap }

/-- Server states reachable when every persistence write succeeds. -/
inductive ReachableOk : ServerState → Prop where
  | init : ReachableOk { tokenMap := [], latencyColl := [] }
  | report (uid tok ip : String) (now : Time) (fresh : String)
      {st : ServerState} : ReachableOk st →
      ReachableOk (reportLatency st uid tok ip now fresh true).1
  | sweep (now : Time) {st : ServerState} : ReachableOk st →
      ReachableOk { st with tokenMap := cleanupTokenMap now st.tokenMap }

/-- One concrete `/reportLatency` call with fixed user `"u"`, client address
`"ip"` and fresh token `"tk"`, keeping only the resulting state. -/
def demoStep (st : ServerState) (tok : String) (t : Time) (db : Bool) :
    ServerState :=
  (reportLatency st "u" tok "ip" t "tk" db).1

/-- Concrete state after creating a session at time 0: the token map holds
`("tk", {iteration := 0, sumOfRTTs := 0, startTracking := 0, ...})`. -/
def demoSt1 : ServerState := demoStep { tokenMap := [], latencyColl := [] } "" 0 true

/-- Concrete state after the session creation at time 0 and four in-progress
rounds at times 1, 2, 3, 4. -/
def demoSt4 : ServerState :=
  demoStep (demoStep (demoStep (demoStep demoSt1 "tk" 1 true) "tk" 2 true)
    "tk" 3 true) "tk" 4 true

/-- Concrete state after the fifth and a sixth round both hit a rejecting
persistence write: the `catch` path leaves the session in the map with its
iteration counter already advanced. -/
def c2CexState : ServerState :=
  demoStep (demoStep demoSt4 "tk" 5 false) "tk" 6 false

/-- Concrete persisted record: region A measured 200 ms for user u1. -/
def docA : UserLatencyDoc :=
  { userId := "u1", ipAddress := "ip", region := "A", lastPingMs := 200,
    updatedAt := 11, createdAt := 1 }

/-- Concrete persisted record: region B measured 90 ms for user u1. -/
def docB : UserLatencyDoc :=
  { userId := "u1", ipAddress := "ip", region := "B", lastPingMs := 90,
    updatedAt := 12, createdAt := 2 }

/-- Concrete persisted record: region B measured 180 ms for user u1. -/
def docB180 : UserLatencyDoc :=
  { userId := "u1", ipAddress := "ip", region := "B", lastPingMs := 180,
    updatedAt := 12, createdAt := 2 }

/-- Concrete session whose current round started at time 0. -/
def staleSession : TestState :=
  { userId := "u", ipAddress := "ip", iteration := 1, totalIterations := 5,
    sumOfRTTs := 3, startTracking := 0 }

/-- Concrete session whose current round started at time 70000. -/
def recentSession : TestState :=
  { userId := "v", ipAddress := "ip", iteration := 2, totalIterations := 5,
    sumOfRTTs := 8, startTracking := 70000 }

/-! ### Association-list map lemmas -/

theorem mapGet_mapSet_self (m : TokenMap) (k : String) (v : TestState) :
    mapGet (mapSet m k v) k = some v := by
  induction m with
  | nil => simp [mapSet, mapGet]
  | cons p ps ih =>
    by_cases h : p.1 = k
    · simp [mapSet, h, mapGet]
    · simp [mapSet, h, mapGet, ih]

theorem mapGet_eq_none_of_forall_not_mem {m : TokenMap} {k : String}
    (h : ∀ s : TestState, (k, s) ∉ m) : mapGet m k = none := by
  induction m with
  | nil => rfl
  | cons p ps ih =>
    obtain ⟨a, b⟩ := p
    have ha : a ≠ k := by
      intro hk
      exact h b (by simp [hk])
    simp only [mapGet, ha, if_false]
    exact ih fun s hs => h s (List.mem_cons_of_mem _ hs)

theorem mapGet_mapDelete_self (m : TokenMap) (k : String) :
    mapGet (mapDelete m k) k = none := by
  apply mapGet_eq_none_of_forall_not_mem
  intro s hs
  have hmem := List.mem_filter.mp hs
  have hne : k ≠ k := by simpa using hmem.2
  exact hne rfl

theorem mem_mapSet {m : TokenMap} {k : String} {v : TestState}
    {p : String × TestState} (hp : p ∈ mapSet m k v) : p = (k, v) ∨ p ∈ m := by
  induction m with
  | nil =>
    simp only [mapSet, List.mem_singleton] at hp
    exact Or.inl hp
  | cons q qs ih =>
    by_cases hq : q.1 = k
    · simp only [mapSet, hq, if_true, List.mem_cons] at hp
      rcases hp with h | h
      · exact Or.inl h
      · exact Or.inr (List.mem_cons_of_mem _ h)
    · simp only [mapSet, hq, if_false, List.mem_cons] at hp
      rcases hp with h | h
      · exact Or.inr (by simp [h])
      · rcases ih h with h' | h'
        · exact Or.inl h'
        · exact Or.inr (List.mem_cons_of_mem _ h')

theorem mem_mapDelete {m : TokenMap} {k : String} {p : String × TestState}
    (hp : p ∈ mapDelete m k) : p ∈ m :=
  (List.mem_filter.mp hp).1

theorem mem_cleanupTokenMap {now : Time} {m : TokenMap} {p : String × TestState} :
    p ∈ cleanupTokenMap now m ↔
      p ∈ m ∧ now - p.2.startTracking ≤ EXPIRATION_MS := by
  simp [cleanupTokenMap, List.mem_filter]

theorem mapGet_cleanupTokenMap_none {now : Time} {m : TokenMap} {tok : String}
    (h : ∀ s : TestState, (tok, s) ∈ m → EXPIRATION_MS < now - s.startTracking) :
    mapGet (cleanupTokenMap now m) tok = none := by
  apply mapGet_eq_none_of_forall_not_mem
  intro s hs
  have hmem := mem_cleanupTokenMap.mp hs
  exact absurd hmem.2 (not_le.mpr (h s hmem.1))

/-! ### Branch behaviour of the `/reportLatency` handler -/

theorem reportLatency_create (st : ServerState) (uid ip : String) (now : Time)
    (fresh : String) (db : Bool) (hu : uid ≠ "") :
    reportLatency st uid "" ip now fresh db =
      ({ st with
           tokenMap := mapSet st.tokenMap fresh
                         { userId := uid, ipAddress := ip, iteration := 0,
                           totalIterations := DEFAULT_TOTAL_ITERATIONS,
                           sumOfRTTs := 0, startTracking := now } },
       .started fresh DEFAULT_TOTAL_ITERATIONS) := by
  simp [reportLatency, hu]

theorem reportLatency_notFound (st : ServerState) (uid tok ip : String)
    (now : Time) (fresh : String) (db : Bool)
    (hu : uid ≠ "") (ht : tok ≠ "") (h : mapGet st.tokenMap tok = none) :
    reportLatency st uid tok ip now fresh db = (st, .notFound) := by
  simp [reportLatency, hu, ht, h]

theorem reportLatency_inProgress (st : ServerState) (uid tok ip : String)
    (now : Time) (fresh : String) (db : Bool) (s : TestState)
    (hu : uid ≠ "") (ht : tok ≠ "") (hs : mapGet st.tokenMap tok = some s)
    (hlt : s.iteration + 1 < s.totalIterations) :
    reportLatency st uid tok ip now fresh db =
      ({ st with
           tokenMap := mapSet st.tokenMap tok
                         { s with
                           sumOfRTTs := s.sumOfRTTs + (now - s.startTracking),
                           iteration := s.iteration + 1,
                           startTracking := now } },
       .inProgress (s.iteration + 1) s.totalIterations) := by
  simp [reportLatency, hu, ht, hs, Nat.not_le.mpr hlt]

theorem reportLatency_completed (st : ServerState) (uid tok ip : String)
    (now : Time) (fresh : String) (s : TestState)
    (hu : uid ≠ "") (ht : tok ≠ "") (hs : mapGet st.tokenMap tok = some s)
    (hfin : s.totalIterations ≤ s.iteration + 1) :
    reportLatency st uid tok ip now fresh true =
      ({ tokenMap := mapDelete st.tokenMap tok,
         latencyColl := updateOneUpsert s.userId SERVER_REGION s.ipAddress
           (jsRound (s.sumOfRTTs + (now - s.startTracking)) s.totalIterations)
           now st.latencyColl },
       .completed (jsRound (s.sumOfRTTs + (now - s.startTracking))
         s.totalIterations) s.totalIterations) := by
  simp [reportLatency, hu, ht, hs, hfin]

theorem reportLatency_dbFail (st : ServerState) (uid tok ip : String)
    (now : Time) (fresh : String) (s : TestState)
    (hu : uid ≠ "") (ht : tok ≠ "") (hs : mapGet st.tokenMap tok = some s)
    (hfin : s.totalIterations ≤ s.iteration + 1) :
    reportLatency st uid tok ip now fresh false =
      ({ st with
           tokenMap := mapSet st.tokenMap tok
                         { s with
                           sumOfRTTs := s.sumOfRTTs + (now - s.startTracking),
                           iteration := s.iteration + 1 } },
       .internalError) := by
  simp [reportLatency, hu, ht, hs, hfin]

/-! ### Multi-round runs of the handshake -/

theorem rttSamples_length (ts : List Time) :
    ∀ start : Time, (rttSamples start ts).length = ts.length := by
  induction ts with
  | nil => intro start; rfl
  | cons t ts ih => intro start; simp [rttSamples, ih t]

theorem rttSamples_sum_telescopes (ts : List Time) :
    ∀ start : Time, (rttSamples start ts).sum = ts.getLastD start - start := by
  induction ts with
  | nil => intro start; simp [rttSamples]
  | cons t ts ih =>
    intro start
    simp only [rttSamples, List.sum_cons, ih t, List.getLastD_cons]
    omega

theorem runPhase2Calls_length (ts : List Time) :
    ∀ (st : ServerState) (uid tok ip : String),
      (runPhase2Calls st uid tok ip ts).2.length = ts.length := by
  induction ts with
  | nil => intro st uid tok ip; rfl
  | cons t ts ih => intro st uid tok ip; simp [runPhase2Calls, ih]

/-- Core correctness of a full sequence of successful phase-2 calls: starting
from a stored session with exactly `times.length` rounds left, the run ends
with the token deleted and the last response reporting
`Math.round((sumOfRTTs + sum of remaining samples) / totalIterations)`. -/
theorem runPhase2Calls_spec (times : List Time) :
    ∀ (st : ServerState) (uid tok ip : String) (s : TestState),
      uid ≠ "" → tok ≠ "" → mapGet st.tokenMap tok = some s →
      s.iteration + times.length = s.totalIterations → times ≠ [] →
      mapGet (runPhase2Calls st uid tok ip times).1.tokenMap tok = none ∧
      (runPhase2Calls st uid tok ip times).2.getLast? =
        some (.completed
          (jsRound (s.sumOfRTTs + (rttSamples s.startTracking times).sum)
            s.totalIterations) s.totalIterations) := by
  induction times with
  | nil => intro _ _ _ _ _ _ _ _ _ hne; exact absurd rfl hne
  | cons t ts ih =>
    intro st uid tok ip s hu ht hs hlen _
    by_cases hts : ts = []
    · subst hts
      have hfin : s.totalIterations ≤ s.iteration + 1 := by
        rw [show ([t] : List Time).length = 1 from rfl] at hlen; omega
      have hstep := reportLatency_completed st uid tok ip t "" s hu ht hs hfin
      simp [runPhase2Calls, hstep, rttSamples, mapGet_mapDelete_self]
    · have hpos : 0 < ts.length := List.length_pos.mpr hts
      have hlt : s.iteration + 1 < s.totalIterations := by
        simp at hlen; omega
      have hlen' : s.iteration + 1 + ts.length = s.totalIterations := by
        simp at hlen; omega
      have hstep := reportLatency_inProgress st uid tok ip t "" true s hu ht hs hlt
      have hget :
          mapGet (reportLatency st uid tok ip t "" true).1.tokenMap tok =
            some { s with
                   sumOfRTTs := s.sumOfRTTs + (t - s.startTracking),
                   iteration := s.iteration + 1, startTracking := t } := by
        rw [hstep]
        exact mapGet_mapSet_self _ _ _
      have hrec := ih (reportLatency st uid tok ip t "" true).1 uid tok ip
        { s with
          sumOfRTTs := s.sumOfRTTs + (t - s.startTracking),
          iteration := s.iteration + 1, startTracking := t }
        hu ht hget (by simpa using hlen') hts
      refine ⟨?_, ?_⟩
      · simpa [runPhase2Calls] using hrec.1
      · have hlen2 : (runPhase2Calls (reportLatency st uid tok ip t "" true).1
            uid tok ip ts).2.length = ts.length := runPhase2Calls_length ts _ _ _ _
        cases hrs : (runPhase2Calls (reportLatency st uid tok ip t "" true).1
            uid tok ip ts).2 with
        | nil => rw [hrs, List.length_nil] at hlen2; omega
        | cons r rs =>
          rw [hrs] at hrec
          simp only [runPhase2Calls, hrs, List.getLast?_cons_cons]
          rw [show (rttSamples s.startTracking (t :: ts)).sum =
              (t - s.startTracking) + (rttSamples t ts).sum by simp [rttSamples]]
          rw [← add_assoc]
          simpa using hrec.2

/-! ### The stable sort and first-seen minimum of the selector -/

theorem insertByPing_ne_nil (x : UserLatencyDoc) (l : List UserLatencyDoc) :
    insertByPing x l ≠ [] := by
  cases l with
  | nil => simp [insertByPing]
  | cons y ys =>
    by_cases h : x.lastPingMs ≤ y.lastPingMs <;> simp [insertByPing, h]

theorem head?_insertByPing (x : UserLatencyDoc) (l : List UserLatencyDoc) :
    (insertByPing x l).head? =
      some (match l.head? with
        | none => x
        | some y => if x.lastPingMs ≤ y.lastPingMs then x else y) := by
  cases l with
  | nil => rfl
  | cons y ys =>
    by_cases h : x.lastPingMs ≤ y.lastPingMs <;> simp [insertByPing, h]

theorem head?_sortByPing (l : List UserLatencyDoc) :
    (sortByPing l).head? = firstMinByPing l := by
  induction l with
  | nil => rfl
  | cons x xs ih =>
    simp only [sortByPing, firstMinByPing]
    rw [head?_insertByPing, ih]
    cases hx : firstMinByPing xs with
    | none => rfl
    | some m =>
      by_cases hc : x.lastPingMs ≤ m.lastPingMs
      · simp [hc, not_lt.mpr hc]
      · simp [hc, not_le.mp hc]

theorem firstMinByPing_eq_none_iff (l : List UserLatencyDoc) :
    firstMinByPing l = none ↔ l = [] := by
  cases l with
  | nil => simp [firstMinByPing]
  | cons x xs =>
    simp only [firstMinByPing]
    constructor
    · intro h
      cases hx : firstMinByPing xs with
      | none => rw [hx] at h; cases h
      | some m =>
        rw [hx] at h
        by_cases hc : m.lastPingMs < x.lastPingMs <;> simp [hc] at h
    · intro h; simp at h

theorem firstMinByPing_mem_min (l : List UserLatencyDoc) :
    ∀ m, firstMinByPing l = some m →
      m ∈ l ∧ ∀ d ∈ l, m.lastPingMs ≤ d.lastPingMs := by
  induction l with
  | nil => intro m h; cases h
  | cons x xs ih =>
    intro m h
    cases hx : firstMinByPing xs with
    | none =>
      simp only [firstMinByPing, hx] at h
      cases h
      have hxs : xs = [] := (firstMinByPing_eq_none_iff xs).mp hx
      subst hxs
      exact ⟨by simp, by simp⟩
    | some m' =>
      simp only [firstMinByPing, hx] at h
      obtain ⟨hmem', hmin'⟩ := ih m' hx
      by_cases hc : m'.lastPingMs < x.lastPingMs
      · rw [if_pos hc] at h
        cases h
        refine ⟨List.mem_cons_of_mem _ hmem', ?_⟩
        intro d hd
        rcases List.mem_cons.mp hd with h' | h'
        · subst h'; exact le_of_lt hc
        · exact hmin' d h'
      · rw [if_neg hc] at h
        cases h
        refine ⟨List.mem_cons_self _ _, ?_⟩
        intro d hd
        rcases List.mem_cons.mp hd with h' | h'
        · subst h'; exact le_refl _
        · exact le_trans (not_lt.mp hc) (hmin' d h')

theorem firstMinByPing_first_seen (l : List UserLatencyDoc) :
    ∀ m, firstMinByPing l = some m →
      ∃ l₁ l₂, l = l₁ ++ m :: l₂ ∧ ∀ d ∈ l₁, m.lastPingMs < d.lastPingMs := by
  induction l with
  | nil => intro m h; cases h
  | cons x xs ih =>
    intro m h
    cases hx : firstMinByPing xs with
    | none =>
      simp only [firstMinByPing, hx] at h
      cases h
      exact ⟨[], xs, rfl, by simp⟩
    | some m' =>
      simp only [firstMinByPing, hx] at h
      by_cases hc : m'.lastPingMs < x.lastPingMs
      · rw [if_pos hc] at h
        obtain ⟨l₁, l₂, heq, hgt⟩ := ih m' hx
        cases h
        refine ⟨x :: l₁, l₂, by rw [heq]; rfl, ?_⟩
        intro d hd
        rcases List.mem_cons.mp hd with h' | h'
        · subst h'; exact hc
        · exact hgt d h'
      · rw [if_neg hc] at h
        cases h
        exact ⟨[], xs, rfl, by simp⟩

theorem closestServer_eq_of_firstMin (coll : List UserLatencyDoc) (uid : String)
    (m : UserLatencyDoc)
    (hm : firstMinByPing (coll.filter (fun d => d.userId == uid)) = some m) :
    closestServer coll uid =
      if m.lastPingMs > LATENCY_CLOSE_THRESHOLD_MS then
        ClosestResponse.aboveThreshold m.lastPingMs
      else ClosestResponse.closest m.region m.lastPingMs m.updatedAt := by
  have hh : (sortByPing (coll.filter (fun d => d.userId == uid))).head? = some m := by
    rw [head?_sortByPing]; exact hm
  cases hs : sortByPing (coll.filter (fun d => d.userId == uid)) with
  | nil => rw [hs] at hh; cases hh
  | cons b t =>
    rw [hs] at hh
    simp only [List.head?_cons, Option.some.injEq] at hh
    subst hh
    simp only [closestServer, hs]

/-! ### The watermark upsert of part_001 -/

theorem findDoc_updateOneUpsertMin_update (coll : List UserLatencyDocMin)
    (uid region ip : String) (avg low : Int) (now : Time) :
    ∀ d, findDoc coll uid region = some d →
      findDoc (updateOneUpsertMin uid region ip avg low now coll) uid region =
        some { userId := uid, ipAddress := ip, region := region,
               lastPingMs := avg, lowestPingMs := min d.lowestPingMs low,
               updatedAt := now, createdAt := d.createdAt } := by
  induction coll with
  | nil => intro d h; cases h
  | cons e es ih =>
    intro d h
    by_cases he : e.userId = uid ∧ e.region = region
    · rw [show findDoc (e :: es) uid region = some e by simp [findDoc, he]] at h
      cases h
      simp [updateOneUpsertMin, findDoc, he]
    · rw [show findDoc (e :: es) uid region = findDoc es uid region by
        simp [findDoc, he]] at h
      simp [updateOneUpsertMin, findDoc, he, ih d h]

theorem findDoc_updateOneUpsertMin_insert (coll : List UserLatencyDocMin)
    (uid region ip : String) (avg low : Int) (now : Time) :
    findDoc coll uid region = none →
      findDoc (updateOneUpsertMin uid region ip avg low now coll) uid region =
        some { userId := uid, ipAddress := ip, region := region,
               lastPingMs := avg, lowestPingMs := low,
               updatedAt := now, createdAt := now } := by
  induction coll with
  | nil => intro _; simp [updateOneUpsertMin, findDoc]
  | cons e es ih =>
    intro h
    by_cases he : e.userId = uid ∧ e.region = region
    · rw [show findDoc (e :: es) uid region = some e by simp [findDoc, he]] at h
      cases h
    · rw [show findDoc (e :: es) uid region = findDoc es uid region by
        simp [findDoc, he]] at h
      simp [updateOneUpsertMin, findDoc, he, ih h]

/-! ### The stored-session invariant under successful operation -/

theorem reportLatency_tokenMap_invariant (st : ServerState)
    (uid tok ip : String) (now : Time) (fresh : String)
    (hinv : ∀ p ∈ st.tokenMap, p.2.iteration < p.2.totalIterations) :
    ∀ p ∈ (reportLatency st uid tok ip now fresh true).1.tokenMap,
      p.2.iteration < p.2.totalIterations := by
  intro p hp
  by_cases hu : uid = ""
  · rw [show reportLatency st uid tok ip now fresh true =
          (st, .missingUserId) by simp [reportLatency, hu]] at hp
    exact hinv p hp
  by_cases ht : tok = ""
  · subst ht
    rw [reportLatency_create st uid ip now fresh true hu] at hp
    have hp' : p ∈ mapSet st.tokenMap fresh
        { userId := uid, ipAddress := ip, iteration := 0,
          totalIterations := DEFAULT_TOTAL_ITERATIONS, sumOfRTTs := 0,
          startTracking := now } := hp
    rcases mem_mapSet hp' with h | h
    · rw [h]
      show 0 < DEFAULT_TOTAL_ITERATIONS
      decide
    · exact hinv p h
  cases hm : mapGet st.tokenMap tok with
  | none =>
    rw [reportLatency_notFound st uid tok ip now fresh true hu ht hm] at hp
    exact hinv p hp
  | some s =>
    by_cases hfin : s.totalIterations ≤ s.iteration + 1
    · rw [reportLatency_completed st uid tok ip now fresh s hu ht hm hfin] at hp
      exact hinv p (mem_mapDelete hp)
    · have hlt : s.iteration + 1 < s.totalIterations := Nat.not_le.mp hfin
      rw [reportLatency_inProgress st uid tok ip now fresh true s hu ht hm hlt]
        at hp
      have hp' : p ∈ mapSet st.tokenMap tok
          { s with sumOfRTTs := s.sumOfRTTs + (now - s.startTracking),
                   iteration := s.iteration + 1, startTracking := now } := hp
      rcases mem_mapSet hp' with h | h
      · rw [h]
        simpa using hlt
      · exact hinv p h

theorem reachableOk_invariant (st : ServerState) (h : ReachableOk st) :
    ∀ p ∈ st.tokenMap, p.2.iteration < p.2.totalIterations := by
  induction h with
  | init => intro p hp; simp at hp
  | report uid tok ip now fresh _ ih =>
    exact reportLatency_tokenMap_invariant _ uid tok ip now fresh ih
  | sweep now _ ih =>
    intro p hp
    exact ih p (mem_cleanupTokenMap.mp hp).1

/-- A full handshake: a phase-1 call at `t0` creating the session under
`tok`, then `DEFAULT_TOTAL_ITERATIONS` successful phase-2 calls at `times`;
the token ends up deleted and the final reply averages the samples. -/
theorem sessionRun_spec (uid tok ip : String) (t0 : Time) (times : List Time)
    (hu : uid ≠ "") (ht : tok ≠ "")
    (hlen : times.length = DEFAULT_TOTAL_ITERATIONS) :
    mapGet (runPhase2Calls
        (reportLatency { tokenMap := [], latencyColl := [] } uid "" ip t0 tok
          true).1 uid tok ip times).1.tokenMap tok = none ∧
    (runPhase2Calls
        (reportLatency { tokenMap := [], latencyColl := [] } uid "" ip t0 tok
          true).1 uid tok ip times).2.getLast? =
      some (.completed
        (jsRound (rttSamples t0 times).sum DEFAULT_TOTAL_ITERATIONS)
        DEFAULT_TOTAL_ITERATIONS) := by
  have hcreate := reportLatency_create { tokenMap := [], latencyColl := [] }
    uid ip t0 tok true hu
  have hget : mapGet (reportLatency { tokenMap := [], latencyColl := [] }
      uid "" ip t0 tok true).1.tokenMap tok =
      some { userId := uid, ipAddress := ip, iteration := 0,
             totalIterations := DEFAULT_TOTAL_ITERATIONS, sumOfRTTs := 0,
             startTracking := t0 } := by
    rw [hcreate]
    exact mapGet_mapSet_self _ _ _
  have hne : times ≠ [] := by
    intro h
    rw [h] at hlen
    simp [DEFAULT_TOTAL_ITERATIONS] at hlen
  have h := runPhase2Calls_spec times _ uid tok ip _ hu ht hget
    (by simpa using hlen) hne
  simpa using h

/-- C1: every session is created with `totalIterations = N` where `N =
DEFAULT_TOTAL_ITERATIONS`; after exactly N successful phase-2 ReportRound
calls on its token the session is absent from the token map and the final
response's average equals `Math.round((sum of the N per-round RTT samples)
/ N)`. -/
theorem c1_completion_removes_session_and_averages (uid tok ip : String)
    (t0 : Time) (times : List Time) (hu : uid ≠ "") (ht : tok ≠ "")
    (hlen : times.length = DEFAULT_TOTAL_ITERATIONS) :
    mapGet (runPhase2Calls
        (reportLatency { tokenMap := [], latencyColl := [] } uid "" ip t0 tok
          true).1 uid tok ip times).1.tokenMap tok = none ∧
    (runPhase2Calls
        (reportLatency { tokenMap := [], latencyColl := [] } uid "" ip t0 tok
          true).1 uid tok ip times).2.getLast? =
      some (.completed
        (jsRound (rttSamples t0 times).sum DEFAULT_TOTAL_ITERATIONS)
        DEFAULT_TOTAL_ITERATIONS) ∧
    (rttSamples t0 times).length = DEFAULT_TOTAL_ITERATIONS :=
  ⟨(sessionRun_spec uid tok ip t0 times hu ht hlen).1,
   (sessionRun_spec uid tok ip t0 times hu ht hlen).2,
   by rw [rttSamples_length]; exact hlen⟩

theorem c1_witness :
    mapGet (runPhase2Calls
        (reportLatency { tokenMap := [], latencyColl := [] } "u" "" "ip" 0 "tk"
          true).1 "u" "tk" "ip" [1, 2, 3, 4, 5]).1.tokenMap "tk" = none ∧
    (runPhase2Calls
        (reportLatency { tokenMap := [], latencyColl := [] } "u" "" "ip" 0 "tk"
          true).1 "u" "tk" "ip" [1, 2, 3, 4, 5]).2.getLast? =
      some (.completed
        (jsRound (rttSamples 0 [1, 2, 3, 4, 5]).sum DEFAULT_TOTAL_ITERATIONS)
        DEFAULT_TOTAL_ITERATIONS) ∧
    (rttSamples 0 [1, 2, 3, 4, 5]).length = DEFAULT_TOTAL_ITERATIONS :=
  c1_completion_removes_session_and_averages "u" "tk" "ip" 0 [1, 2, 3, 4, 5]
    (by decide) (by decide) (by decide)

/-- C10: each in-progress advance resets `startTracking` to the same `now`
used for that round's RTT, so the samples telescope: their sum is
`t_final - t_create`, and the completion average is
`Math.round((t_final - t_create) / N)` — it depends only on the total
elapsed time, not on how the rounds partition it. -/
theorem c10_average_is_elapsed_over_iterations (uid tok ip : String)
    (t0 tN : Time) (times : List Time) (hu : uid ≠ "") (ht : tok ≠ "")
    (hlen : times.length = DEFAULT_TOTAL_ITERATIONS)
    (hlast : times.getLast? = some tN) :
    (rttSamples t0 times).sum = tN - t0 ∧
    (runPhase2Calls
        (reportLatency { tokenMap := [], latencyColl := [] } uid "" ip t0 tok
          true).1 uid tok ip times).2.getLast? =
      some (.completed (jsRound (tN - t0) DEFAULT_TOTAL_ITERATIONS)
        DEFAULT_TOTAL_ITERATIONS) := by
  have hsum : (rttSamples t0 times).sum = tN - t0 := by
    rw [rttSamples_sum_telescopes, List.getLastD_eq_getLast?, hlast]
    rfl
  refine ⟨hsum, ?_⟩
  have h := (sessionRun_spec uid tok ip t0 times hu ht hlen).2
  rw [hsum] at h
  exact h

theorem c10_witness :
    (rttSamples 0 [10, 20, 30, 40, 50]).sum = 50 - 0 ∧
    (runPhase2Calls
        (reportLatency { tokenMap := [], latencyColl := [] } "u" "" "ip" 0 "tk"
          true).1 "u" "tk" "ip" [10, 20, 30, 40, 50]).2.getLast? =
      some (.completed (jsRound (50 - 0) DEFAULT_TOTAL_ITERATIONS)
        DEFAULT_TOTAL_ITERATIONS) :=
  c10_average_is_elapsed_over_iterations "u" "tk" "ip" 0 50
    [10, 20, 30, 40, 50] (by decide) (by decide) (by decide) (by decide)

/-- C2 (amended): provided every completion-path persistence write succeeds,
every stored session of a reachable server state has
`iteration < totalIterations` (hence `0 ≤ iteration ≤ totalIterations`);
a successful advance stores and reports exactly `iteration + 1` (so the
counter strictly increases across successive successful advances); an
advance removes the session exactly when the incremented counter reaches
`totalIterations`; and the sweep removes exactly the sessions whose age
exceeds `EXPIRATION_MS`.  (When a write rejects, the code instead keeps the
session at — and then beyond — `totalIterations`; see the counterexample.) -/
theorem c2_iteration_invariant_and_removal :
    (∀ st : ServerState, ReachableOk st →
       ∀ p ∈ st.tokenMap, p.2.iteration ≤ p.2.totalIterations) ∧
    (∀ (st : ServerState) (uid tok ip fresh : String) (now : Time)
       (s : TestState), uid ≠ "" → tok ≠ "" →
       mapGet st.tokenMap tok = some s →
       s.iteration + 1 < s.totalIterations →
       mapGet (reportLatency st uid tok ip now fresh true).1.tokenMap tok =
           some { s with
                  sumOfRTTs := s.sumOfRTTs + (now - s.startTracking),
                  iteration := s.iteration + 1, startTracking := now } ∧
         (reportLatency st uid tok ip now fresh true).2 =
           .inProgress (s.iteration + 1) s.totalIterations) ∧
    (∀ (st : ServerState) (uid tok ip fresh : String) (now : Time)
       (s : TestState), uid ≠ "" → tok ≠ "" →
       mapGet st.tokenMap tok = some s → s.iteration < s.totalIterations →
       (mapGet (reportLatency st uid tok ip now fresh true).1.tokenMap tok =
           none ↔ s.iteration + 1 = s.totalIterations)) ∧
    (∀ (now : Time) (m : TokenMap) (p : String × TestState), p ∈ m →
       (p ∈ cleanupTokenMap now m ↔
         now - p.2.startTracking ≤ EXPIRATION_MS)) := by
  refine ⟨?_, ?_, ?_, ?_⟩
  · intro st h p hp
    exact le_of_lt (reachableOk_invariant st h p hp)
  · intro st uid tok ip fresh now s hu ht hs hlt
    rw [reportLatency_inProgress st uid tok ip now fresh true s hu ht hs hlt]
    exact ⟨mapGet_mapSet_self _ _ _, rfl⟩
  · intro st uid tok ip fresh now s hu ht hs hit
    by_cases heq : s.iteration + 1 = s.totalIterations
    · rw [reportLatency_completed st uid tok ip now fresh s hu ht hs
        (le_of_eq heq.symm)]
      simp only [heq, iff_true]
      exact mapGet_mapDelete_self _ _
    · have hlt : s.iteration + 1 < s.totalIterations := by omega
      rw [reportLatency_inProgress st uid tok ip now fresh true s hu ht hs hlt]
      have hset := mapGet_mapSet_self st.tokenMap tok
        { s with sumOfRTTs := s.sumOfRTTs + (now - s.startTracking),
                 iteration := s.iteration + 1, startTracking := now }
      simp [hset, heq]
  · intro now m p hp
    exact ⟨fun h => (mem_cleanupTokenMap.mp h).2,
           fun h => mem_cleanupTokenMap.mpr ⟨hp, h⟩⟩

theorem c2_witness :
    (mapGet (reportLatency demoSt1 "u" "tk" "ip" 1 "x" true).1.tokenMap "tk" =
        some { userId := "u", ipAddress := "ip", iteration := 1,
               totalIterations := 5, sumOfRTTs := 1, startTracking := 1 } ∧
      (reportLatency demoSt1 "u" "tk" "ip" 1 "x" true).2 =
        ReportResponse.inProgress 1 5) ∧
    (mapGet (reportLatency demoSt4 "u" "tk" "ip" 5 "x" true).1.tokenMap "tk" =
        none ↔ (4 : Nat) + 1 = 5) := by
  constructor
  · have h := c2_iteration_invariant_and_removal.2.1 demoSt1 "u" "tk" "ip" "x" 1
      { userId := "u", ipAddress := "ip", iteration := 0, totalIterations := 5,
        sumOfRTTs := 0, startTracking := 0 }
      (by decide) (by decide) (by decide) (by decide)
    simpa using h
  · have h := c2_iteration_invariant_and_removal.2.2.1 demoSt4 "u" "tk" "ip" "x"
      5
      { userId := "u", ipAddress := "ip", iteration := 4, totalIterations := 5,
        sumOfRTTs := 4, startTracking := 4 }
      (by decide) (by decide) (by decide) (by decide)
    simpa using h

/-- C2 is refuted on the code as stated: after a final round whose
persistence write rejects, the session survives in the map with
`iteration = totalIterations` (so it is not removed exactly when the
counter reaches the total), and one further failing call on the same token
drives `iteration` to 6 > 5, violating `iteration ≤ totalIterations`.
Both states are reachable executions of the handler. -/
theorem c2_counterexample :
    Reachable (demoStep demoSt4 "tk" 5 false) ∧
    ("tk", { userId := "u", ipAddress := "ip", iteration := 5,
             totalIterations := 5, sumOfRTTs := 5, startTracking := 4 })
      ∈ (demoStep demoSt4 "tk" 5 false).tokenMap ∧
    Reachable c2CexState ∧
    ("tk", { userId := "u", ipAddress := "ip", iteration := 6,
             totalIterations := 5, sumOfRTTs := 7, startTracking := 4 })
      ∈ c2CexState.tokenMap ∧
    ¬ ((6 : Nat) ≤ 5) := by
  refine ⟨?_, by decide, ?_, by decide, by decide⟩
  · exact Reachable.report "u" "tk" "ip" 5 "tk" false
      (Reachable.report "u" "tk" "ip" 4 "tk" true
        (Reachable.report "u" "tk" "ip" 3 "tk" true
          (Reachable.report "u" "tk" "ip" 2 "tk" true
            (Reachable.report "u" "tk" "ip" 1 "tk" true
              (Reachable.report "u" "" "ip" 0 "tk" true Reachable.init)))))
  · exact Reachable.report "u" "tk" "ip" 6 "tk" false
      (Reachable.report "u" "tk" "ip" 5 "tk" false
        (Reachable.report "u" "tk" "ip" 4 "tk" true
          (Reachable.report "u" "tk" "ip" 3 "tk" true
            (Reachable.report "u" "tk" "ip" 2 "tk" true
              (Reachable.report "u" "tk" "ip" 1 "tk" true
                (Reachable.report "u" "" "ip" 0 "tk" true Reachable.init))))))

/-- C3 is refuted on the code as stated: on the final round the handler
`await`s the collection write inside the route's try block, so a rejected
write lands in the catch handler, which replies with the 500 internal
error — not with the successful `{avgRttMs, totalIterations}` payload that
the same call produces when the write resolves. -/
theorem c3_counterexample :
    (reportLatency demoSt4 "u" "tk" "ip" 5 "tk" false).2 =
      ReportResponse.internalError ∧
    (reportLatency demoSt4 "u" "tk" "ip" 5 "tk" true).2 =
      ReportResponse.completed 1 5 ∧
    ReportResponse.internalError ≠ ReportResponse.completed 1 5 := by
  decide

/-- C3 (amended): when the completion-path write fails, the exception is
caught by the route-level catch handler (which logs it), but the
client-visible reply is the 500 internal error instead of the completion
payload; the collection is unchanged and the session survives in the map
with its sum and iteration already advanced in place. -/
theorem c3_write_failure_returns_500 (st : ServerState)
    (uid tok ip fresh : String) (now : Time) (s : TestState)
    (hu : uid ≠ "") (ht : tok ≠ "") (hs : mapGet st.tokenMap tok = some s)
    (hfin : s.totalIterations ≤ s.iteration + 1) :
    (reportLatency st uid tok ip now fresh false).2 =
      ReportResponse.internalError ∧
    (reportLatency st uid tok ip now fresh false).1.latencyColl =
      st.latencyColl ∧
    mapGet (reportLatency st uid tok ip now fresh false).1.tokenMap tok =
      some { s with sumOfRTTs := s.sumOfRTTs + (now - s.startTracking),
                    iteration := s.iteration + 1 } := by
  rw [reportLatency_dbFail st uid tok ip now fresh s hu ht hs hfin]
  exact ⟨rfl, rfl, mapGet_mapSet_self _ _ _⟩

theorem c3_write_failure_returns_500_witness :
    (reportLatency demoSt4 "u" "tk" "ip" 5 "f" false).2 =
      ReportResponse.internalError ∧
    (reportLatency demoSt4 "u" "tk" "ip" 5 "f" false).1.latencyColl =
      demoSt4.latencyColl ∧
    mapGet (reportLatency demoSt4 "u" "tk" "ip" 5 "f" false).1.tokenMap "tk" =
      some { userId := "u", ipAddress := "ip", iteration := 5,
             totalIterations := 5, sumOfRTTs := 5, startTracking := 4 } := by
  have h := c3_write_failure_returns_500 demoSt4 "u" "tk" "ip" "f" 5
    { userId := "u", ipAddress := "ip", iteration := 4, totalIterations := 5,
      sumOfRTTs := 4, startTracking := 4 }
    (by decide) (by decide) (by decide) (by decide)
  refine ⟨h.1, h.2.1, ?_⟩
  rw [h.2.2]
  decide

/-- C4: when the user has persisted records but every comparison metric
exceeds `LATENCY_CLOSE_THRESHOLD_MS` (equivalently, the minimum does), the
selector replies above-threshold (`closest: null` with data present) — a
reply distinct from the no-data reply produced when the user has no
records. -/
theorem c4_threshold_distinct_from_no_data :
    (∀ (coll : List UserLatencyDoc) (uid : String),
       coll.filter (fun d => d.userId == uid) = [] →
       closestServer coll uid = ClosestResponse.noData) ∧
    (∀ (coll : List UserLatencyDoc) (uid : String),
       coll.filter (fun d => d.userId == uid) ≠ [] →
       (∀ d ∈ coll.filter (fun d => d.userId == uid),
          LATENCY_CLOSE_THRESHOLD_MS < d.lastPingMs) →
       (∃ b, closestServer coll uid = ClosestResponse.aboveThreshold b ∧
          LATENCY_CLOSE_THRESHOLD_MS < b) ∧
       closestServer coll uid ≠ ClosestResponse.noData) := by
  constructor
  · intro coll uid h
    simp [closestServer, h, sortByPing]
  · intro coll uid hne hall
    obtain ⟨m, hm⟩ : ∃ m, firstMinByPing
        (coll.filter (fun d => d.userId == uid)) = some m := by
      cases hx : firstMinByPing (coll.filter (fun d => d.userId == uid)) with
      | none => exact absurd ((firstMinByPing_eq_none_iff _).mp hx) hne
      | some m => exact ⟨m, rfl⟩
    have hmem := (firstMinByPing_mem_min _ m hm).1
    have hgt : LATENCY_CLOSE_THRESHOLD_MS < m.lastPingMs := hall m hmem
    have hsel := closestServer_eq_of_firstMin coll uid m hm
    rw [if_pos hgt] at hsel
    refine ⟨⟨m.lastPingMs, hsel, hgt⟩, ?_⟩
    rw [hsel]
    simp

theorem c4_witness :
    closestServer [docA, docB180] "nobody" = ClosestResponse.noData ∧
    (∃ b, closestServer [docA, docB180] "u1" =
        ClosestResponse.aboveThreshold b ∧ LATENCY_CLOSE_THRESHOLD_MS < b) ∧
    closestServer [docA, docB180] "u1" ≠ ClosestResponse.noData :=
  ⟨c4_threshold_distinct_from_no_data.1 [docA, docB180] "nobody" (by decide),
   (c4_threshold_distinct_from_no_data.2 [docA, docB180] "u1" (by decide)
     (by decide)).1,
   (c4_threshold_distinct_from_no_data.2 [docA, docB180] "u1" (by decide)
     (by decide)).2⟩

/-- C8: for a user with records, the selector returns the record whose
metric is minimal over the set (when it passes the threshold), and the
stable sort breaks ties in first-seen order: the winner is the first
element of the fetched list attaining the minimum, and every earlier
element has a strictly larger metric. -/
theorem c8_selects_first_seen_minimum (coll : List UserLatencyDoc)
    (uid : String) (m : UserLatencyDoc)
    (hm : firstMinByPing (coll.filter (fun d => d.userId == uid)) = some m)
    (hth : m.lastPingMs ≤ LATENCY_CLOSE_THRESHOLD_MS) :
    closestServer coll uid =
      ClosestResponse.closest m.region m.lastPingMs m.updatedAt ∧
    m ∈ coll.filter (fun d => d.userId == uid) ∧
    (∀ d ∈ coll.filter (fun d => d.userId == uid),
       m.lastPingMs ≤ d.lastPingMs) ∧
    ∃ l₁ l₂, coll.filter (fun d => d.userId == uid) = l₁ ++ m :: l₂ ∧
      ∀ d ∈ l₁, m.lastPingMs < d.lastPingMs := by
  have hsel := closestServer_eq_of_firstMin coll uid m hm
  rw [if_neg (not_lt.mpr hth)] at hsel
  obtain ⟨hmem, hmin⟩ := firstMinByPing_mem_min _ m hm
  exact ⟨hsel, hmem, hmin, firstMinByPing_first_seen _ m hm⟩

theorem c8_witness :
    closestServer [docA, docB] "u1" =
      ClosestResponse.closest docB.region docB.lastPingMs docB.updatedAt ∧
    docB ∈ List.filter (fun d => d.userId == "u1") [docA, docB] ∧
    (∀ d ∈ List.filter (fun d => d.userId == "u1") [docA, docB],
       docB.lastPingMs ≤ d.lastPingMs) ∧
    ∃ l₁ l₂, List.filter (fun d => d.userId == "u1") [docA, docB] =
        l₁ ++ docB :: l₂ ∧ ∀ d ∈ l₁, docB.lastPingMs < d.lastPingMs :=
  c8_selects_first_seen_minimum [docA, docB] "u1" docB (by decide) (by decide)

/-- C5 is refuted on src/server.ts as stated: its update document places
`createdAt: new Date()` inside `$set`, so a second completion for the same
`(userId, region)` overwrites `createdAt` (here from 10 to 20) instead of
leaving it unchanged. -/
theorem c5_counterexample :
    updateOneUpsert "u" "R" "ip" 100 10 [] =
      [{ userId := "u", ipAddress := "ip", region := "R", lastPingMs := 100,
         updatedAt := 10, createdAt := 10 }] ∧
    updateOneUpsert "u" "R" "ip" 80 20
        (updateOneUpsert "u" "R" "ip" 100 10 []) =
      [{ userId := "u", ipAddress := "ip", region := "R", lastPingMs := 80,
         updatedAt := 20, createdAt := 20 }] ∧
    (20 : Int) ≠ 10 := by
  decide

/-- C5 (amended): the watermark variant (part_001), whose update document
carries `$setOnInsert: {createdAt}`, writes `createdAt` only on the
inserting completion and preserves it on every later completion, while
`lastPingMs` and `updatedAt` are overwritten; the plain server.ts variant
instead rewrites `createdAt` on every completion's upsert. -/
theorem c5_createdAt_set_once_in_watermark_variant :
    (∀ (coll : List UserLatencyDocMin) (uid region ip : String)
       (avg low : Int) (now : Time) (d : UserLatencyDocMin),
       findDoc coll uid region = some d →
       findDoc (updateOneUpsertMin uid region ip avg low now coll) uid
           region =
         some { userId := uid, ipAddress := ip, region := region,
                lastPingMs := avg, lowestPingMs := min d.lowestPingMs low,
                updatedAt := now, createdAt := d.createdAt }) ∧
    (∀ (coll : List UserLatencyDocMin) (uid region ip : String)
       (avg low : Int) (now : Time),
       findDoc coll uid region = none →
       findDoc (updateOneUpsertMin uid region ip avg low now coll) uid
           region =
         some { userId := uid, ipAddress := ip, region := region,
                lastPingMs := avg, lowestPingMs := low,
                updatedAt := now, createdAt := now }) :=
  ⟨fun coll uid region ip avg low now d h =>
     findDoc_updateOneUpsertMin_update coll uid region ip avg low now d h,
   fun coll uid region ip avg low now h =>
     findDoc_updateOneUpsertMin_insert coll uid region ip avg low now h⟩

theorem c5_witness :
    findDoc (updateOneUpsertMin "u" "R" "ip" 80 85 7
        (updateOneUpsertMin "u" "R" "ip" 100 90 3 [])) "u" "R" =
      some { userId := "u", ipAddress := "ip", region := "R",
             lastPingMs := 80, lowestPingMs := min 90 85,
             updatedAt := 7, createdAt := 3 } :=
  c5_createdAt_set_once_in_watermark_variant.1
    (updateOneUpsertMin "u" "R" "ip" 100 90 3 []) "u" "R" "ip" 80 85 7
    { userId := "u", ipAddress := "ip", region := "R", lastPingMs := 100,
      lowestPingMs := 90, updatedAt := 3, createdAt := 3 } (by decide)

/-- C6: the watermark upsert combines the supplied value with the stored one
through `min` instead of overwriting; concretely, two upserts for one key
with averages 100 then 80 (and supplied session minima `m1`, `m2` with
`m2 ≤ 80`) leave `lastPingMs = 80` (latest wins) and
`lowestPingMs = min m1 m2 ≤ 80` (minimum wins). -/
theorem c6_watermark_min_semantics (coll0 : List UserLatencyDocMin)
    (uid region ip : String) (m1 m2 : Int) (t1 t2 : Time)
    (h0 : findDoc coll0 uid region = none) (hm2 : m2 ≤ 80) :
    (∀ (coll : List UserLatencyDocMin) (d : UserLatencyDocMin)
       (avg low : Int) (now : Time),
       findDoc coll uid region = some d →
       (findDoc (updateOneUpsertMin uid region ip avg low now coll) uid
           region).map (fun e => e.lowestPingMs) =
         some (min d.lowestPingMs low)) ∧
    findDoc (updateOneUpsertMin uid region ip 80 m2 t2
        (updateOneUpsertMin uid region ip 100 m1 t1 coll0)) uid region =
      some { userId := uid, ipAddress := ip, region := region,
             lastPingMs := 80, lowestPingMs := min m1 m2,
             updatedAt := t2, createdAt := t1 } ∧
    min m1 m2 ≤ 80 := by
  refine ⟨?_, ?_, le_trans (min_le_right m1 m2) hm2⟩
  · intro coll d avg low now h
    rw [findDoc_updateOneUpsertMin_update coll uid region ip avg low now d h]
    rfl
  · have h1 := findDoc_updateOneUpsertMin_insert coll0 uid region ip 100 m1 t1
      h0
    have h2 := findDoc_updateOneUpsertMin_update
      (updateOneUpsertMin uid region ip 100 m1 t1 coll0) uid region ip 80 m2
      t2 _ h1
    simpa using h2

theorem c6_witness :
    findDoc (updateOneUpsertMin "u" "R" "ip" 80 70 20
        (updateOneUpsertMin "u" "R" "ip" 100 95 10 [])) "u" "R" =
      some { userId := "u", ipAddress := "ip", region := "R",
             lastPingMs := 80, lowestPingMs := min 95 70,
             updatedAt := 20, createdAt := 10 } ∧
    min (95 : Int) 70 ≤ 80 :=
  ⟨(c6_watermark_min_semantics [] "u" "R" "ip" 95 70 10 20 (by decide)
      (by decide)).2.1,
   (c6_watermark_min_semantics [] "u" "R" "ip" 95 70 10 20 (by decide)
      (by decide)).2.2⟩

/-- C7: a sweep run at time `now` deletes exactly the sessions with
`now - startTracking > EXPIRATION_MS`: every such session is gone (and a
later ReportRound on its token is answered with token-not-found), while no
session within the expiration window is deleted. -/
theorem c7_sweep_deletes_exactly_expired :
    (∀ (now : Time) (m : TokenMap) (p : String × TestState), p ∈ m →
       EXPIRATION_MS < now - p.2.startTracking →
       p ∉ cleanupTokenMap now m) ∧
    (∀ (now : Time) (m : TokenMap) (p : String × TestState), p ∈ m →
       now - p.2.startTracking ≤ EXPIRATION_MS →
       p ∈ cleanupTokenMap now m) ∧
    (∀ (now : Time) (m : TokenMap) (tok : String),
       (∀ s : TestState, (tok, s) ∈ m →
          EXPIRATION_MS < now - s.startTracking) →
       mapGet (cleanupTokenMap now m) tok = none) ∧
    (∀ (now t : Time) (m : TokenMap) (coll : List UserLatencyDoc)
       (uid tok ip fresh : String) (db : Bool), uid ≠ "" → tok ≠ "" →
       (∀ s : TestState, (tok, s) ∈ m →
          EXPIRATION_MS < now - s.startTracking) →
       reportLatency { tokenMap := cleanupTokenMap now m, latencyColl := coll }
           uid tok ip t fresh db =
         ({ tokenMap := cleanupTokenMap now m, latencyColl := coll },
          ReportResponse.notFound)) := by
  refine ⟨?_, ?_, ?_, ?_⟩
  · intro now m p _ hexp hin
    exact absurd (mem_cleanupTokenMap.mp hin).2 (not_le.mpr hexp)
  · intro now m p hp hok
    exact mem_cleanupTokenMap.mpr ⟨hp, hok⟩
  · intro now m tok h
    exact mapGet_cleanupTokenMap_none h
  · intro now t m coll uid tok ip fresh db hu ht h
    exact reportLatency_notFound _ uid tok ip t fresh db hu ht
      (mapGet_cleanupTokenMap_none h)

theorem c7_witness :
    ("a", staleSession) ∉
      cleanupTokenMap 70000 [("a", staleSession), ("b", recentSession)] ∧
    ("b", recentSession) ∈
      cleanupTokenMap 70000 [("a", staleSession), ("b", recentSession)] ∧
    mapGet (cleanupTokenMap 70000 [("a", staleSession)]) "a" = none ∧
    reportLatency
        { tokenMap := cleanupTokenMap 70000 [("a", staleSession)],
          latencyColl := [] } "u" "a" "ip" 70001 "f" true =
      ({ tokenMap := cleanupTokenMap 70000 [("a", staleSession)],
         latencyColl := [] }, ReportResponse.notFound) := by
  have hexp : ∀ s : TestState, ("a", s) ∈ [("a", staleSession)] →
      EXPIRATION_MS < 70000 - s.startTracking := by
    intro s hs
    have heq : s = staleSession := by simpa using hs
    rw [heq]
    decide
  refine ⟨?_, ?_, ?_, ?_⟩
  · exact c7_sweep_deletes_exactly_expired.1 70000 _ _ (by decide) (by decide)
  · exact c7_sweep_deletes_exactly_expired.2.1 70000 _ _ (by decide)
      (by decide)
  · exact c7_sweep_deletes_exactly_expired.2.2.1 70000 _ "a" hexp
  · exact c7_sweep_deletes_exactly_expired.2.2.2 70000 70001 _ [] "u" "a" "ip"
      "f" true (by decide) (by decide) hexp

/-- C9: a phase-2 ReportRound call whose token is absent from the map (never
issued, expired, or already completed) is answered with the 404
token-not-found error and leaves the whole server state unchanged — no
session is created, mutated, or returned. -/
theorem c9_unknown_token_yields_not_found (st : ServerState)
    (uid tok ip fresh : String) (now : Time) (db : Bool)
    (hu : uid ≠ "") (ht : tok ≠ "") (h : mapGet st.tokenMap tok = none) :
    reportLatency st uid tok ip now fresh db =
      (st, ReportResponse.notFound) :=
  reportLatency_notFound st uid tok ip now fresh db hu ht h

theorem c9_witness :
    reportLatency demoSt1 "u" "zz" "ip" 9 "f" true =
      (demoSt1, ReportResponse.notFound) :=
  c9_unknown_token_yields_not_found demoSt1 "u" "zz" "ip" "f" 9 true
    (by decide) (by decide) (by decide)

end LatencyTest
